import Mathlib

/-!
Verification development for the CyNiT-tools media pipeline (`SP-YT/yt.py`).

The Python source is shallowly embedded: pure string helpers become Lean
functions on `String`/`List Char`; the external extraction service and the
ffmpeg encoder are abstracted as outcome oracles (attempt number ↦ outcome),
exactly in the style the design document suggests for testing (scripted
deterministic stubs); the retry loops are embedded as fuel-indexed recursions
that additionally record an observable trace (number of external calls and
the list of backoff sleep durations, as exact rationals).
-/

namespace SPYT

/-! ## Python string primitives

`str.strip()` semantics: drop characters satisfying a predicate from both
ends, one pass each.  We model the ASCII whitespace characters stripped by
Python's `str.strip()`; the claims under study only involve these. -/

def pyWs (c : Char) : Bool :=
  c = ' ' || c = '\t' || c = '\n' || c = '\r' || c = '\x0B' || c = '\x0C'

/-- Python `s.strip(chars)` on a list of characters: drop characters
satisfying `p` from the left, then from the right (one pass each). -/
def stripList (p : Char → Bool) (l : List Char) : List Char :=
  ((l.dropWhile p).reverse.dropWhile p).reverse

/-- Python `s.strip(chars)` on strings. -/
def pyStrip (p : Char → Bool) (s : String) : String :=
  String.mk (stripList p s.toList)

/-! ## Naming Utility (`safe_filename`, `parse_artist_title_from_basename`) -/

/-- The forbidden character set `<>:"/\|?*` of `safe_filename`. -/
def badChars : List Char := ['<', '>', ':', '"', '/', '\\', '|', '?', '*']

/-- Embedding of `yt.py` `safe_filename`: replace each forbidden character by
an underscore, Python-`strip()` whitespace, then `strip(".")`, and fall back
to `"track"` when the result is empty. -/
def safe_filename (name : String) : String :=
  let cleaned := String.mk (name.toList.map fun c => if badChars.contains c then '_' else c)
  let cleaned2 := pyStrip pyWs cleaned
  let cleaned3 := pyStrip (fun c => c = '.') cleaned2
  if cleaned3 = "" then "track" else cleaned3

/-- The sanitizer exactly as the specification sentence words it: replace the
forbidden characters, trim leading/trailing whitespace and *trailing* dots
only, fall back to `"track"` when empty.  Used to compare the spec sentence
with the code, which also strips *leading* dots. -/
def claimSanitizeFilename (name : String) : String :=
  let cleaned := String.mk (name.toList.map fun c => if badChars.contains c then '_' else c)
  let t := pyStrip pyWs cleaned
  let t2 := String.mk ((t.toList.reverse.dropWhile (fun c => c = '.')).reverse)
  if t2 = "" then "track" else t2

/-- The literal separator `" - "` of `parse_artist_title_from_basename`. -/
def sepChars : List Char := [' ', '-', ' ']

/-- `a.startsWith b` on character lists. -/
def startsWithSep : List Char → List Char → Bool
  | [], _ => true
  | _ :: _, [] => false
  | a :: as, b :: bs => a = b && startsWithSep as bs

/-- Python `s.split(sep, 1)` combined with the `sep in s` test: `some (pre,
post)` splits at the first occurrence of `sep`, `none` means `sep` does not
occur. -/
def splitOnce (sep : List Char) : List Char → Option (List Char × List Char)
  | [] => none
  | c :: rest =>
    if startsWithSep sep (c :: rest) then some ([], (c :: rest).drop sep.length)
    else
      match splitOnce sep rest with
      | some (pre, post) => some (c :: pre, post)
      | none => none

/-- Embedding of `yt.py` `parse_artist_title_from_basename`: strip the whole
input first, then split at the first `" - "`; each side is stripped and an
empty side becomes `none`; without a separator the whole stripped input is
the title (`none` when empty). -/
def parse_artist_title_from_basename (basename : String) : Option String × Option String :=
  let base := pyStrip pyWs basename
  match splitOnce sepChars base.toList with
  | some (pre, post) =>
    let artist := pyStrip pyWs (String.mk pre)
    let title := pyStrip pyWs (String.mk post)
    ((if artist = "" then none else some artist),
     (if title = "" then none else some title))
  | none => (none, if base = "" then none else some base)

/-- The splitter exactly as the specification sentence words it: the
separator test and the split are performed on the *raw* input (no preliminary
strip of the whole string); each side is trimmed, empty becomes none; without
a separator the whole (trimmed) input is the title. -/
def claimSplitArtistTitle (input : String) : Option String × Option String :=
  match splitOnce sepChars input.toList with
  | some (pre, post) =>
    let artist := pyStrip pyWs (String.mk pre)
    let title := pyStrip pyWs (String.mk post)
    ((if artist = "" then none else some artist),
     (if title = "" then none else some title))
  | none =>
    let base := pyStrip pyWs input
    (none, if base = "" then none else some base)

/-! ## Extraction Adapter (`youtube_download_single`)

The external `yt_dlp` call is abstracted as an `ExtractOutcome`: the call can
raise, return no info, or return a metadata record.  Metadata fields model
Python dictionary lookups where a missing field and an empty string are both
falsy for `or`-chains, so both are represented by `""`. -/

/-- Metadata record returned by a successful extraction, together with the
file name the service assigned (`prepare_filename`) and whether the
post-download rename would succeed. -/
structure ExtractInfo where
  track : String
  title : String
  artist : String
  uploader : String
  channel : String
  origName : String
  renameOk : Bool
deriving DecidableEq

/-- Outcome of one `extract_info` call: an exception with message `msg`, a
`None` return, or a metadata record. -/
inductive ExtractOutcome where
  | raises (msg : String)
  | noInfo
  | info (i : ExtractInfo)
deriving DecidableEq

/-- Python `a or b` on strings (empty string is falsy). -/
def pyOr (a b : String) : String := if a = "" then b else a

/-- `pathlib` `Path.suffix` restricted to a file name: the part from the last
dot on, provided that dot is neither the first nor the last character. -/
def rstrDotIdx : List Char → Option Nat
  | [] => none
  | c :: rest =>
    match rstrDotIdx rest with
    | some j => some (j + 1)
    | none => if c = '.' then some 0 else none

def pySuffix (name : String) : String :=
  let l := name.toList
  match rstrDotIdx l with
  | some i => if 0 < i ∧ i < l.length - 1 then String.mk (l.drop i) else ""
  | none => ""

/-- `pathlib` `Path.stem` restricted to a file name. -/
def pyStem (name : String) : String :=
  let l := name.toList
  match rstrDotIdx l with
  | some i => if 0 < i ∧ i < l.length - 1 then String.mk (l.take i) else name
  | none => name

/-- Per-item result dictionary of `youtube_download_single`. -/
structure DlResult where
  url : String
  ok : Bool
  filename : Option String
  title : Option String
  artist : Option String
  error : Option String
deriving DecidableEq

/-- Embedding of `yt.py` `youtube_download_single`: one extraction call,
metadata harvesting (`track or title`, `artist or uploader or channel`),
display-name computation through `safe_filename`, best-effort rename, and
conversion of every exception into the `error` field. -/
def youtube_download_single (url : String) (ext : ExtractOutcome) : DlResult :=
  match ext with
  | .raises msg =>
    { url := url, ok := false, filename := none, title := none, artist := none,
      error := some msg }
  | .noInfo =>
    { url := url, ok := false, filename := none, title := none, artist := none,
      error := some ("Geen info van yt-dlp (video mogelijk niet beschikbaar).") }
  | .info i =>
    let extn := pySuffix i.origName
    let title := pyOr i.track (pyOr i.title (""))
    let artist := pyOr i.artist (pyOr i.uploader (pyOr i.channel ("")))
    let niceBase := if artist ≠ "" then artist ++ " - " ++ title else pyOr title ("track")
    let niceBase2 := safe_filename niceBase
    let newName := niceBase2 ++ extn
    let finalName :=
      if newName ≠ i.origName then (if i.renameOk then newName else i.origName)
      else i.origName
    { url := url, ok := true, filename := some finalName, title := some title,
      artist := if artist = "" then none else some artist, error := none }

/-! ## Normalization Encoder (`convert_to_mp3_normalized`)

The ffmpeg invocation is abstracted as an outcome oracle: attempt number ↦
outcome of `subprocess.check_call` (success, `CalledProcessError`, or
`FileNotFoundError`).  The embedding records the returned boolean, the number
of tool invocations, and the list of backoff sleep durations in seconds. -/

inductive FfmpegOutcome where
  | success
  | procError
  | binMissing
deriving DecidableEq

structure ConvertTrace where
  result : Bool
  calls : Nat
  sleeps : List ℚ
deriving DecidableEq

/-- The retry loop of `convert_to_mp3_normalized`, with `fuel` remaining
attempts and `attempt` the 1-based index of the next attempt.  On
`CalledProcessError` the code sleeps `1.0 * attempt` seconds (also after the
final attempt — the sleep sits in the `except` branch) and retries; on
`FileNotFoundError` it returns `False` at once. -/
def convertLoop (outcome : Nat → FfmpegOutcome) : Nat → Nat → ConvertTrace
  | _, 0 => ⟨false, 0, []⟩
  | attempt, fuel + 1 =>
    match outcome attempt with
    | .success => ⟨true, 1, []⟩
    | .binMissing => ⟨false, 1, []⟩
    | .procError =>
      let t := convertLoop outcome (attempt + 1) fuel
      ⟨t.result, t.calls + 1, (1 : ℚ) * (attempt : ℚ) :: t.sleeps⟩

/-- Embedding of `yt.py` `convert_to_mp3_normalized` (attempts run for
`attempt in range(1, max_retries + 1)`). -/
def convert_to_mp3_normalized (outcome : Nat → FfmpegOutcome) (maxRetries : Nat) : ConvertTrace :=
  convertLoop outcome 1 maxRetries

/-! ## Acquisition Scheduler (`youtube_batch_download` and its `worker`)

One worker handles one identifier: up to `max_retries` calls of the
Extraction Adapter, with a `sleep_between_retries * attempt` backoff sleep
after each failed attempt.  The adapter is abstracted as an oracle from
attempt numbers to `DlResult`s. -/

/-- The Python `res = {}` initial dictionary of `worker`, as a `DlResult`
with every field absent/falsy. -/
def emptyRes : DlResult :=
  { url := "", ok := false, filename := none, title := none, artist := none, error := none }

/-- The retry loop of `worker`: returns the last `DlResult` produced (`none`
if no attempt ran), the number of adapter calls, and the backoff sleep
durations.  A sleep of `sleepBetween * attempt` seconds follows every failed
attempt, including the last one. -/
def workerLoop (single : Nat → DlResult) (sleepBetween : ℚ) : Nat → Nat → Option DlResult × Nat × List ℚ
  | _, 0 => (none, 0, [])
  | attempt, fuel + 1 =>
    let r := single attempt
    if r.ok then (some r, 1, [])
    else
      let t := workerLoop single sleepBetween (attempt + 1) fuel
      (some (t.1.getD r), t.2.1 + 1, sleepBetween * (attempt : ℚ) :: t.2.2)

structure WorkerTrace where
  res : DlResult
  calls : Nat
  sleeps : List ℚ
deriving DecidableEq

/-- Embedding of the `worker` closure in `youtube_batch_download`: run the
retry loop, then ensure a failed item carries an error message (`res.get
("error") or "Download faalde na N pogingen."`). -/
def worker (single : Nat → DlResult) (sleepBetween : ℚ) (maxRetries : Nat) : WorkerTrace :=
  let t := workerLoop single sleepBetween 1 maxRetries
  let r := t.1.getD emptyRes
  let msg := pyOr (r.error.getD ("")) ("Download faalde na " ++ toString maxRetries ++ " pogingen.")
  let final := if r.ok then r else { r with error := some msg }
  ⟨final, t.2.1, t.2.2⟩

structure BatchSummary where
  total : Nat
  ok : Nat
  failed : Nat
deriving DecidableEq

structure BatchOutcome where
  results : List DlResult
  summary : BatchSummary
  workersSpawned : Bool
deriving DecidableEq

/-- Embedding of `yt.py` `youtube_batch_download`.  The empty identifier
list returns the degenerate summary before the executor block is reached.
For a non-empty list the code submits one `worker` per url to the thread
pool, but the result-collection loop (`for fut in as_completed(futs)`)
evaluates the name `as_completed`, which is never imported — line 24 imports
only `ThreadPoolExecutor` from `concurrent.futures` and no other binding for
the name exists — so the call raises `NameError` (Python message:
`name 'as_completed' is not defined`) instead of building results or a
summary; the submitted workers still run to completion while the executor
shuts down, but their results are discarded by the raised exception.  The
exception is embedded as `Except.error` carrying the exception class and
name. -/
def youtube_batch_download (single : String → Nat → DlResult) (sleepBetween : ℚ)
    (maxRetries : Nat) (urls : List String) : Except String BatchOutcome :=
  if urls.length = 0 then
    .ok ⟨[], ⟨0, 0, 0⟩, false⟩
  else
    .error ("NameError: name as_completed is not defined")

/-! ## Batch Converter (`batch_convert`)

The filesystem is abstracted as: does the input folder exist, and the list of
names of its direct entries.  The encoder is driven through the
`convert_to_mp3_normalized` embedding with a per-file outcome oracle.  The
summary also records the encoder invocations (input name and retry budget) to
make "the encoder is (not) invoked" provable. -/

structure ConversionJob where
  input : String
  output : String
  status : String
deriving DecidableEq

structure ConvertSummary where
  input_folder : String
  output_folder : String
  files_found : Nat
  converted : Nat
  errors : List String
  details : List ConversionJob
  encoderCalls : List (String × Nat)
deriving DecidableEq

def VALID_EXTS : List String := [".m4a", ".webm", ".mp4", ".opus"]

/-- Lexicographic (code-point) comparison of character lists; this is how
Python's `sorted` orders the file paths of one directory. -/
def strLeb : List Char → List Char → Bool
  | [], _ => true
  | _ :: _, [] => false
  | a :: as, b :: bs => if a = b then strLeb as bs else decide (a < b)

/-- One iteration of the `for f in files` loop of `batch_convert`. -/
def batchStep (outcome : String → Nat → FfmpegOutcome) (acc : ConvertSummary)
    (f : String) : ConvertSummary :=
  let outputName := pyStem f ++ ".mp3"
  let ok := (convert_to_mp3_normalized (outcome f) 3).result
  { acc with
    details := acc.details ++ [⟨f, outputName, if ok then "OK" else "FOUT"⟩],
    converted := if ok then acc.converted + 1 else acc.converted,
    errors := if ok then acc.errors else acc.errors ++ ["Fout bij converteren: " ++ f],
    encoderCalls := acc.encoderCalls ++ [(f, 3)] }

/-- The sorted allow-list filter of `batch_convert`:
`sorted(f for f in inp.iterdir() if f.suffix.lower() in VALID_EXTS)`. -/
def eligibleFiles (entries : List String) : List String :=
  (entries.filter fun f =>
      VALID_EXTS.contains (String.mk ((pySuffix f).toList.map Char.toLower))).mergeSort
    fun a b => strLeb a.toList b.toList

/-- Embedding of `yt.py` `batch_convert`. -/
def batch_convert (input_folder output_folder : String) (inputExists : Bool)
    (entries : List String) (outcome : String → Nat → FfmpegOutcome) : ConvertSummary :=
  if ¬ inputExists then
    { input_folder := input_folder, output_folder := output_folder,
      files_found := 0, converted := 0,
      errors := ["Inputfolder bestaat niet: " ++ input_folder],
      details := [], encoderCalls := [] }
  else
    let files := eligibleFiles entries
    let init : ConvertSummary :=
      { input_folder := input_folder, output_folder := output_folder,
        files_found := files.length, converted := 0,
        errors := [], details := [], encoderCalls := [] }
    files.foldl (batchStep outcome) init

/-- Outcome of driving the encoder once over file `f` with the converter's
fixed retry budget of 3. -/
def convertOk (outcome : String → Nat → FfmpegOutcome) (f : String) : Bool :=
  (convert_to_mp3_normalized (outcome f) 3).result

/-- The `ConversionJob` row recorded by `batch_convert` for file `f`. -/
def rowOf (outcome : String → Nat → FfmpegOutcome) (f : String) : ConversionJob :=
  ⟨f, pyStem f ++ ".mp3", if convertOk outcome f then "OK" else "FOUT"⟩

/-- The error message recorded by `batch_convert` for a failed file. -/
def errMsg (f : String) : String := "Fout bij converteren: " ++ f

/-! ## Lemmas about the Python string primitives -/

theorem dropWhile_head_false {p : Char → Bool} :
    ∀ {l t : List Char} {c : Char}, l.dropWhile p = c :: t → p c = false := by
  intro l
  induction l with
  | nil => intro t c h; simp [List.dropWhile] at h
  | cons a as ih =>
    intro t c h
    by_cases ha : p a
    · rw [List.dropWhile_cons_of_pos ha] at h
      exact ih h
    · rw [List.dropWhile_cons_of_neg ha] at h
      cases h
      simpa using ha

theorem exists_append_dropWhile (p : Char → Bool) :
    ∀ l : List Char, ∃ s, s ++ l.dropWhile p = l := by
  intro l
  induction l with
  | nil => exact ⟨[], rfl⟩
  | cons a as ih =>
    by_cases ha : p a
    · obtain ⟨s, hs⟩ := ih
      exact ⟨a :: s, by simp [List.dropWhile_cons_of_pos ha, hs]⟩
    · exact ⟨[], by simp [List.dropWhile_cons_of_neg ha]⟩

theorem dropWhile_dropWhile (p : Char → Bool) (l : List Char) :
    (l.dropWhile p).dropWhile p = l.dropWhile p := by
  cases h : l.dropWhile p with
  | nil => rfl
  | cons c t =>
    have hc := dropWhile_head_false h
    simp [List.dropWhile_cons_of_neg, hc]

theorem stripList_append (p : Char → Bool) (l : List Char) :
    ∃ s, l.dropWhile p = stripList p l ++ s := by
  obtain ⟨u, hu⟩ := exists_append_dropWhile p (l.dropWhile p).reverse
  refine ⟨u.reverse, ?_⟩
  have := congrArg List.reverse hu
  simpa [stripList] using this.symm

theorem stripList_head_false {p : Char → Bool} {l t : List Char} {c : Char}
    (h : stripList p l = c :: t) : p c = false := by
  obtain ⟨s, hs⟩ := stripList_append p l
  rw [h] at hs
  exact dropWhile_head_false hs

theorem stripList_getLast_false {p : Char → Bool} {l : List Char} {c : Char}
    (h : (stripList p l).getLast? = some c) : p c = false := by
  unfold stripList at h
  rw [List.getLast?_reverse] at h
  cases hw : ((l.dropWhile p).reverse.dropWhile p) with
  | nil => rw [hw] at h; simp at h
  | cons d t =>
    rw [hw] at h
    simp at h
    subst h
    exact dropWhile_head_false hw

theorem dropWhile_of_stripList (p : Char → Bool) (l : List Char) :
    (stripList p l).dropWhile p = stripList p l := by
  cases h : stripList p l with
  | nil => rfl
  | cons c t =>
    have hc := stripList_head_false h
    simp [List.dropWhile_cons_of_neg, hc]

theorem stripList_idem (p : Char → Bool) (l : List Char) :
    stripList p (stripList p l) = stripList p l := by
  have h1 : (stripList p l).dropWhile p = stripList p l := dropWhile_of_stripList p l
  have h2 : (stripList p l).reverse.dropWhile p = (stripList p l).reverse := by
    have : (stripList p l).reverse = ((l.dropWhile p).reverse.dropWhile p) := by
      simp [stripList]
    rw [this]
    exact dropWhile_dropWhile p _
  show (((stripList p l).dropWhile p).reverse.dropWhile p).reverse = stripList p l
  rw [h1, h2, List.reverse_reverse]

theorem mem_of_mem_stripList {p : Char → Bool} {l : List Char} {c : Char}
    (h : c ∈ stripList p l) : c ∈ l := by
  obtain ⟨s, hs⟩ := stripList_append p l
  have hd : c ∈ l.dropWhile p := by
    rw [hs]; exact List.mem_append_left s h
  exact List.Sublist.mem hd (List.dropWhile_sublist p)

theorem pyStrip_idem (p : Char → Bool) (s : String) :
    pyStrip p (pyStrip p s) = pyStrip p s := by
  unfold pyStrip
  have : (String.mk (stripList p s.toList)).toList = stripList p s.toList := rfl
  rw [this, stripList_idem]

/-! ## Lemmas about the encoder retry loop -/

theorem convertLoop_allProc {outcome : Nat → FfmpegOutcome} :
    ∀ (f attempt : Nat), (∀ a, attempt ≤ a → outcome a = .procError) →
    convertLoop outcome attempt f =
      ⟨false, f, (List.range' attempt f).map fun a => (1 : ℚ) * (a : ℚ)⟩ := by
  intro f
  induction f with
  | zero => intro attempt h; simp [convertLoop, List.range']
  | succ f ih =>
    intro attempt h
    have h0 : outcome attempt = .procError := h attempt le_rfl
    have ht := ih (attempt + 1) fun a ha => h a (by omega)
    simp [convertLoop, h0, ht, List.range'_succ]

theorem convertLoop_success_after {outcome : Nat → FfmpegOutcome} :
    ∀ (j attempt f : Nat), j < f →
    (∀ a, attempt ≤ a → a < attempt + j → outcome a = .procError) →
    outcome (attempt + j) = .success →
    convertLoop outcome attempt f =
      ⟨true, j + 1, (List.range' attempt j).map fun a => (1 : ℚ) * (a : ℚ)⟩ := by
  intro j
  induction j with
  | zero =>
    intro attempt f hf h hs
    cases f with
    | zero => omega
    | succ f =>
      rw [Nat.add_zero] at hs
      simp [convertLoop, hs, List.range']
  | succ j ih =>
    intro attempt f hf h hs
    cases f with
    | zero => omega
    | succ f =>
      have h0 : outcome attempt = .procError := h attempt le_rfl (by omega)
      have ht := ih (attempt + 1) f (by omega)
        (fun a ha1 ha2 => h a (by omega) (by omega))
        (by rw [show attempt + 1 + j = attempt + (j + 1) by omega]; exact hs)
      simp [convertLoop, h0, ht, List.range'_succ]

theorem convertLoop_binMissing_after {outcome : Nat → FfmpegOutcome} :
    ∀ (j attempt f : Nat), j < f →
    (∀ a, attempt ≤ a → a < attempt + j → outcome a = .procError) →
    outcome (attempt + j) = .binMissing →
    convertLoop outcome attempt f =
      ⟨false, j + 1, (List.range' attempt j).map fun a => (1 : ℚ) * (a : ℚ)⟩ := by
  intro j
  induction j with
  | zero =>
    intro attempt f hf h hs
    cases f with
    | zero => omega
    | succ f =>
      rw [Nat.add_zero] at hs
      simp [convertLoop, hs, List.range']
  | succ j ih =>
    intro attempt f hf h hs
    cases f with
    | zero => omega
    | succ f =>
      have h0 : outcome attempt = .procError := h attempt le_rfl (by omega)
      have ht := ih (attempt + 1) f (by omega)
        (fun a ha1 ha2 => h a (by omega) (by omega))
        (by rw [show attempt + 1 + j = attempt + (j + 1) by omega]; exact hs)
      simp [convertLoop, h0, ht, List.range'_succ]

theorem convertLoop_result_true {outcome : Nat → FfmpegOutcome} :
    ∀ (f attempt : Nat), (convertLoop outcome attempt f).result = true →
    ∃ a, attempt ≤ a ∧ a < attempt + f ∧ outcome a = .success := by
  intro f
  induction f with
  | zero => intro attempt h; simp [convertLoop] at h
  | succ f ih =>
    intro attempt h
    cases ho : outcome attempt with
    | success => exact ⟨attempt, le_rfl, by omega, ho⟩
    | binMissing => simp [convertLoop, ho] at h
    | procError =>
      simp [convertLoop, ho] at h
      obtain ⟨a, h1, h2, h3⟩ := ih (attempt + 1) h
      exact ⟨a, by omega, by omega, h3⟩

/-! ## Lemmas about the scheduler worker retry loop -/

theorem workerLoop_ok_step {single : Nat → DlResult} {sb : ℚ} (attempt fuel : Nat)
    (h0 : (single attempt).ok = true) :
    workerLoop single sb attempt (fuel + 1) = (some (single attempt), 1, []) := by
  simp [workerLoop, h0]

theorem workerLoop_fail_step {single : Nat → DlResult} {sb : ℚ} (attempt fuel : Nat)
    (h0 : (single attempt).ok = false) :
    workerLoop single sb attempt (fuel + 1) =
      (some ((workerLoop single sb (attempt + 1) fuel).1.getD (single attempt)),
        (workerLoop single sb (attempt + 1) fuel).2.1 + 1,
        sb * (attempt : ℚ) :: (workerLoop single sb (attempt + 1) fuel).2.2) := by
  simp [workerLoop, h0]

theorem workerLoop_allFail {single : Nat → DlResult} {sb : ℚ} :
    ∀ (f attempt : Nat), (∀ a, attempt ≤ a → (single a).ok = false) →
    workerLoop single sb attempt (f + 1) =
      (some (single (attempt + f)), f + 1,
        (List.range' attempt (f + 1)).map fun a => sb * (a : ℚ)) := by
  intro f
  induction f with
  | zero =>
    intro attempt h
    rw [workerLoop_fail_step attempt 0 (h attempt le_rfl)]
    simp [workerLoop, List.range'_succ, List.range']
  | succ f ih =>
    intro attempt h
    have h0 : (single attempt).ok = false := h attempt le_rfl
    have ht := ih (attempt + 1) fun a ha => h a (by omega)
    rw [workerLoop_fail_step attempt (f + 1) h0, ht]
    simp [List.range'_succ]
    congr 1
    omega

theorem workerLoop_okAfter {single : Nat → DlResult} {sb : ℚ} :
    ∀ (j attempt f : Nat), j < f →
    (∀ a, attempt ≤ a → a < attempt + j → (single a).ok = false) →
    (single (attempt + j)).ok = true →
    workerLoop single sb attempt f =
      (some (single (attempt + j)), j + 1,
        (List.range' attempt j).map fun a => sb * (a : ℚ)) := by
  intro j
  induction j with
  | zero =>
    intro attempt f hf h hs
    cases f with
    | zero => omega
    | succ f =>
      rw [Nat.add_zero] at hs
      rw [workerLoop_ok_step attempt f hs]
      simp [List.range']
  | succ j ih =>
    intro attempt f hf h hs
    cases f with
    | zero => omega
    | succ f =>
      have h0 : (single attempt).ok = false := h attempt le_rfl (by omega)
      have ht := ih (attempt + 1) f (by omega)
        (fun a ha1 ha2 => h a (by omega) (by omega))
        (by rw [show attempt + 1 + j = attempt + (j + 1) by omega]; exact hs)
      rw [workerLoop_fail_step attempt f h0, ht]
      simp [List.range'_succ]
      congr 1
      omega

/-- A non-empty string stays non-empty when something is appended. -/
theorem append_ne_empty_left {a : String} (b : String) (ha : a ≠ "") : a ++ b ≠ "" := by
  intro h
  have hd := congrArg String.data h
  rw [String.data_append] at hd
  rcases List.append_eq_nil.mp hd with ⟨h1, _⟩
  exact ha (String.ext h1)

theorem pyOr_ne_empty {a b : String} (hb : b ≠ "") : pyOr a b ≠ "" := by
  unfold pyOr
  split
  · exact hb
  · assumption

theorem worker_okFirst {single : Nat → DlResult} {sb : ℚ} {mr : Nat} (hmr : 1 ≤ mr)
    (h1 : (single 1).ok = true) :
    worker single sb mr = ⟨single 1, 1, []⟩ := by
  cases mr with
  | zero => omega
  | succ m =>
    simp [worker, workerLoop_ok_step 1 m h1, h1]

theorem worker_okAfterK {single : Nat → DlResult} {sb : ℚ} {mr k : Nat} (hk : k + 1 ≤ mr)
    (hfail : ∀ a, 1 ≤ a → a ≤ k → (single a).ok = false)
    (hok : (single (k + 1)).ok = true) :
    worker single sb mr = ⟨single (k + 1), k + 1, (List.range' 1 k).map fun a => sb * (a : ℚ)⟩ := by
  have hw := @workerLoop_okAfter single sb k 1 mr (by omega)
    (fun a h1 h2 => hfail a h1 (by omega))
    (by rw [show 1 + k = k + 1 by omega]; exact hok)
  rw [show 1 + k = k + 1 by omega] at hw
  simp [worker, hw, hok]

theorem worker_allFail {single : Nat → DlResult} {sb : ℚ} {mr : Nat} (hmr : 1 ≤ mr)
    (hfail : ∀ a, (single a).ok = false) :
    (worker single sb mr).calls = mr ∧
    (worker single sb mr).res.ok = false ∧
    (worker single sb mr).res.error =
      some (pyOr ((single mr).error.getD (""))
        ("Download faalde na " ++ toString mr ++ " pogingen.")) ∧
    (worker single sb mr).sleeps = (List.range' 1 mr).map fun a => sb * (a : ℚ) := by
  cases mr with
  | zero => omega
  | succ m =>
    have hw := @workerLoop_allFail single sb m 1 fun a _ => hfail a
    rw [show 1 + m = m + 1 by omega] at hw
    simp [worker, hw, hfail (m + 1)]

/-! ## Claim theorems -/

/-- Claim C1: the claim asserts that `youtube_batch_download` returns a
summary with `total = len(identifiers)`, `ok + failed = total` and one result
per identifier, and never raises.  The code contradicts this: `as_completed`
is used at the result-collection loop but never imported, so every call with
a non-empty identifier list raises `NameError` and returns nothing —
evaluated here at the failing input `["a"]`.  Only the empty-list degenerate
case behaves as the claim states, returning `{total := 0, ok := 0,
failed := 0}` with no results and no spawned workers. -/
theorem C1_scheduler_crash :
    youtube_batch_download (fun _ _ => emptyRes) 2 6 ["a"] =
      .error ("NameError: name as_completed is not defined") ∧
    youtube_batch_download (fun _ _ => emptyRes) 2 6 [] =
      .ok ⟨[], ⟨0, 0, 0⟩, false⟩ :=
  ⟨rfl, rfl⟩

/-- Claim C2: for the scheduler's per-item worker with at least one allowed
attempt — a first-attempt success makes exactly one adapter call and no
backoff sleep; failing exactly `k < max_retries` times then succeeding makes
exactly `k + 1` adapter calls and reports success; always failing makes
exactly `max_retries` calls and reports failure with a non-empty error
message. -/
theorem C2_worker_retries (single : Nat → DlResult) (sb : ℚ) (mr : Nat) (hmr : 1 ≤ mr) :
    ((single 1).ok = true →
      (worker single sb mr).calls = 1 ∧ (worker single sb mr).sleeps = []) ∧
    (∀ k, k + 1 ≤ mr → (∀ a, 1 ≤ a → a ≤ k → (single a).ok = false) →
      (single (k + 1)).ok = true →
      (worker single sb mr).calls = k + 1 ∧ (worker single sb mr).res.ok = true) ∧
    ((∀ a, (single a).ok = false) →
      (worker single sb mr).calls = mr ∧ (worker single sb mr).res.ok = false ∧
      ∃ m, (worker single sb mr).res.error = some m ∧ m ≠ "") := by
  refine ⟨?_, ?_, ?_⟩
  · intro h1
    rw [worker_okFirst hmr h1]
    exact ⟨rfl, rfl⟩
  · intro k hk hfail hok
    rw [worker_okAfterK hk hfail hok]
    exact ⟨rfl, hok⟩
  · intro hfail
    obtain ⟨hc, ho, he, _⟩ := worker_allFail hmr hfail
    refine ⟨hc, ho, _, he, ?_⟩
    exact pyOr_ne_empty (append_ne_empty_left (" pogingen.")
      (append_ne_empty_left (toString mr) (by decide)))

/-- Witness for C2: a first-attempt success, a succeed-on-third-attempt
adapter, and an always-failing adapter, each with `max_retries = 3`. -/
theorem C2_worker_retries_witness :
    ((worker (fun _ => { emptyRes with ok := true }) 2 3).calls = 1 ∧
      (worker (fun _ => { emptyRes with ok := true }) 2 3).sleeps = []) ∧
    ((worker (fun a => { emptyRes with ok := decide (3 ≤ a) }) 2 3).calls = 3 ∧
      (worker (fun a => { emptyRes with ok := decide (3 ≤ a) }) 2 3).res.ok = true) ∧
    ((worker (fun _ => emptyRes) 2 3).calls = 3 ∧
      (worker (fun _ => emptyRes) 2 3).res.ok = false ∧
      ∃ m, (worker (fun _ => emptyRes) 2 3).res.error = some m ∧ m ≠ "") := by
  refine ⟨?_, ?_, ?_⟩
  · exact (C2_worker_retries (fun _ => { emptyRes with ok := true }) 2 3 (by omega)).1 rfl
  · exact (C2_worker_retries (fun a => { emptyRes with ok := decide (3 ≤ a) }) 2 3
      (by omega)).2.1 2 (by omega) (fun a h1 h2 => by interval_cases a <;> rfl) rfl
  · exact (C2_worker_retries (fun _ => emptyRes) 2 3 (by omega)).2.2 fun _ => rfl

/-- Claim C3 counterexample: with `max_retries = 1` and an always-failing
adapter/encoder, a single (hence final) attempt runs and a backoff sleep is
still recorded after it — the code sleeps after every failed attempt, also
the last one, contradicting "never after the final attempt". -/
theorem C3_backoff_counterexample :
    (worker (fun _ => emptyRes) 2 1).calls = 1 ∧
    (worker (fun _ => emptyRes) 2 1).sleeps.length = 1 ∧
    (convert_to_mp3_normalized (fun _ => FfmpegOutcome.procError) 1).calls = 1 ∧
    (convert_to_mp3_normalized (fun _ => FfmpegOutcome.procError) 1).sleeps.length = 1 := by
  exact ⟨rfl, rfl, rfl, rfl⟩

/-- Claim C3 (amended): a backoff sleep follows every *failed* attempt —
including the final one — and never follows a success or a missing-binary
failure; its duration is linear in the attempt number,
`retry_backoff_seconds * attempt` in the scheduler worker and `1.0 * attempt`
in the normalization encoder. -/
theorem C3_backoff_amended (single : Nat → DlResult) (sb : ℚ) (mr : Nat)
    (outcome : Nat → FfmpegOutcome) :
    ((∀ a, (single a).ok = false) →
      (worker single sb mr).sleeps = (List.range' 1 mr).map fun a => sb * (a : ℚ)) ∧
    (∀ k, k + 1 ≤ mr → (∀ a, 1 ≤ a → a ≤ k → (single a).ok = false) →
      (single (k + 1)).ok = true →
      (worker single sb mr).sleeps = (List.range' 1 k).map fun a => sb * (a : ℚ)) ∧
    ((∀ a, outcome a = .procError) →
      (convert_to_mp3_normalized outcome mr).sleeps =
        (List.range' 1 mr).map fun a => (1 : ℚ) * (a : ℚ)) ∧
    (∀ k, k + 1 ≤ mr → (∀ a, 1 ≤ a → a ≤ k → outcome a = .procError) →
      outcome (k + 1) = .success →
      (convert_to_mp3_normalized outcome mr).sleeps =
        (List.range' 1 k).map fun a => (1 : ℚ) * (a : ℚ)) ∧
    (∀ k, k + 1 ≤ mr → (∀ a, 1 ≤ a → a ≤ k → outcome a = .procError) →
      outcome (k + 1) = .binMissing →
      (convert_to_mp3_normalized outcome mr).sleeps =
        (List.range' 1 k).map fun a => (1 : ℚ) * (a : ℚ)) := by
  refine ⟨?_, ?_, ?_, ?_, ?_⟩
  · intro hfail
    cases mr with
    | zero => simp [worker, workerLoop, List.range']
    | succ m => exact (worker_allFail (by omega) hfail).2.2.2
  · intro k hk hfail hok
    rw [worker_okAfterK hk hfail hok]
  · intro hproc
    unfold convert_to_mp3_normalized
    rw [convertLoop_allProc mr 1 fun a _ => hproc a]
  · intro k hk hproc hok
    unfold convert_to_mp3_normalized
    rw [convertLoop_success_after k 1 mr (by omega)
      (fun a h1 h2 => hproc a h1 (by omega))
      (by rw [show 1 + k = k + 1 by omega]; exact hok)]
  · intro k hk hproc hmiss
    unfold convert_to_mp3_normalized
    rw [convertLoop_binMissing_after k 1 mr (by omega)
      (fun a h1 h2 => hproc a h1 (by omega))
      (by rw [show 1 + k = k + 1 by omega]; exact hmiss)]

/-- Witness for the amended C3: an always-failing adapter with
`max_retries = 2` and an always-failing encoder with `max_retries = 2`. -/
theorem C3_backoff_amended_witness :
    (worker (fun _ => emptyRes) 2 2).sleeps =
      (List.range' 1 2).map (fun a => (2 : ℚ) * (a : ℚ)) ∧
    (convert_to_mp3_normalized (fun _ => FfmpegOutcome.procError) 2).sleeps =
      (List.range' 1 2).map (fun a => (1 : ℚ) * (a : ℚ)) := by
  exact ⟨(C3_backoff_amended (fun _ => emptyRes) 2 2 (fun _ => .procError)).1 fun _ => rfl,
    (C3_backoff_amended (fun _ => emptyRes) 2 2 (fun _ => .procError)).2.2.1 fun _ => rfl⟩

/-- Claim C6: `convert_to_mp3_normalized` returns true only when an encoder
invocation fully succeeds; a missing encoder binary makes it return false
immediately without consuming the remaining retries; exhausting all
`maxRetries` attempts on invocation failures returns false. -/
theorem C6_convert_retry (outcome : Nat → FfmpegOutcome) (mr : Nat) :
    ((convert_to_mp3_normalized outcome mr).result = true →
      ∃ a, 1 ≤ a ∧ a ≤ mr ∧ outcome a = .success) ∧
    (∀ k, k + 1 ≤ mr → (∀ a, 1 ≤ a → a ≤ k → outcome a = .procError) →
      outcome (k + 1) = .binMissing →
      (convert_to_mp3_normalized outcome mr).result = false ∧
      (convert_to_mp3_normalized outcome mr).calls = k + 1) ∧
    ((∀ a, outcome a = .procError) →
      (convert_to_mp3_normalized outcome mr).result = false ∧
      (convert_to_mp3_normalized outcome mr).calls = mr) := by
  refine ⟨?_, ?_, ?_⟩
  · intro h
    obtain ⟨a, h1, h2, h3⟩ := convertLoop_result_true mr 1 h
    exact ⟨a, h1, by omega, h3⟩
  · intro k hk hproc hmiss
    unfold convert_to_mp3_normalized
    rw [convertLoop_binMissing_after k 1 mr (by omega)
      (fun a h1 h2 => hproc a h1 (by omega))
      (by rw [show 1 + k = k + 1 by omega]; exact hmiss)]
    exact ⟨rfl, rfl⟩
  · intro hproc
    unfold convert_to_mp3_normalized
    rw [convertLoop_allProc mr 1 fun a _ => hproc a]
    exact ⟨rfl, rfl⟩

/-- Witness for C6: a binary-missing-on-first-attempt encoder with
`maxRetries = 3` stops after one call, and an always-failing encoder
consumes all three. -/
theorem C6_convert_retry_witness :
    ((convert_to_mp3_normalized (fun _ => FfmpegOutcome.binMissing) 3).result = false ∧
      (convert_to_mp3_normalized (fun _ => FfmpegOutcome.binMissing) 3).calls = 0 + 1) ∧
    ((convert_to_mp3_normalized (fun _ => FfmpegOutcome.procError) 3).result = false ∧
      (convert_to_mp3_normalized (fun _ => FfmpegOutcome.procError) 3).calls = 3) := by
  exact ⟨(C6_convert_retry (fun _ => FfmpegOutcome.binMissing) 3).2.1 0 (by omega)
      (fun a h1 h2 => by omega) rfl,
    (C6_convert_retry (fun _ => FfmpegOutcome.procError) 3).2.2 fun _ => rfl⟩

/-- Claim C7: `youtube_download_single` never reports success together with a
non-empty error field: every result has either `ok = true` and `error = none`
or `ok = false` and an error message; every extraction failure is converted
into the error field (the embedding is a total function, so nothing
propagates). -/
theorem C7_single_result_consistent (url : String) (ext : ExtractOutcome) :
    ((youtube_download_single url ext).ok = true ∧
      (youtube_download_single url ext).error = none) ∨
    ((youtube_download_single url ext).ok = false ∧
      ∃ m, (youtube_download_single url ext).error = some m) := by
  cases ext with
  | raises m => exact Or.inr ⟨rfl, m, rfl⟩
  | noInfo => exact Or.inr ⟨rfl, _, rfl⟩
  | info i => exact Or.inl ⟨rfl, rfl⟩

/-- Every character of `safe_filename name` comes from the underscore
substitution, so none is forbidden. -/
theorem safe_filename_no_bad (name : String) :
    ∀ c ∈ (safe_filename name).toList, badChars.contains c = false := by
  intro c hc
  simp only [safe_filename] at hc
  split at hc
  · have : ∀ d ∈ ("track" : String).toList, badChars.contains d = false := by decide
    exact this c hc
  · have hc2 : c ∈ stripList (fun c => c = '.')
        (stripList pyWs ((name.toList.map fun c => if badChars.contains c then '_' else c))) := hc
    have hc3 := mem_of_mem_stripList (mem_of_mem_stripList hc2)
    obtain ⟨d, hd, hfd⟩ := List.mem_map.mp hc3
    by_cases hbad : badChars.contains d = true
    · rw [if_pos hbad] at hfd
      rw [← hfd]
      decide
    · rw [if_neg hbad] at hfd
      rw [← hfd]
      simpa using hbad

/-- The first character of `safe_filename name` is never a dot (leading dots
are stripped). -/
theorem safe_filename_head (name : String) :
    (safe_filename name).toList.head? ≠ some ('.') := by
  simp only [safe_filename]
  split
  · decide
  · show (stripList (fun c => c = '.')
        (stripList pyWs (name.toList.map fun c => if badChars.contains c then '_' else c))).head?
        ≠ some ('.')
    cases hsl : stripList (fun c => c = '.')
        (stripList pyWs (name.toList.map fun c => if badChars.contains c then '_' else c)) with
    | nil => simp
    | cons c t =>
      have hc := stripList_head_false hsl
      simp only [List.head?, ne_eq, Option.some.injEq]
      intro hcc
      rw [hcc] at hc
      simp at hc

/-- The last character of `safe_filename name` is never a dot (trailing dots
are stripped). -/
theorem safe_filename_getLast (name : String) :
    (safe_filename name).toList.getLast? ≠ some ('.') := by
  simp only [safe_filename]
  split
  · decide
  · show (stripList (fun c => c = '.')
        (stripList pyWs (name.toList.map fun c => if badChars.contains c then '_' else c))).getLast?
        ≠ some ('.')
    intro h
    have := stripList_getLast_false h
    simp at this

theorem safe_filename_ne_empty (name : String) : safe_filename name ≠ "" := by
  simp only [safe_filename]
  split
  · decide
  · assumption

/-- Claim C4 counterexample: the specification describes trimming of
*trailing* dots only, but `safe_filename` strips *leading* dots as well:
on `".a"` the code yields `"a"` while the described transformation yields
`".a"`. -/
theorem C4_sanitize_counterexample :
    safe_filename (".a") = "a" ∧ claimSanitizeFilename (".a") = ".a" ∧
    ("a" : String) ≠ ".a" := by
  exact ⟨by decide, by decide, by decide⟩

/-- Claim C4 (amended): `safe_filename` replaces each forbidden character
with an underscore and trims leading/trailing whitespace and then leading
*and* trailing dots (one pass each); the result never contains a forbidden
character, never starts or ends with a dot, is never empty (fallback
`"track"`), and `safe_filename ("   ") = "track"`.  Determinism and freedom
from side effects hold because the embedding is a pure function. -/
theorem C4_sanitize_amended (name : String) :
    (∀ c ∈ (safe_filename name).toList, badChars.contains c = false) ∧
    (safe_filename name).toList.head? ≠ some ('.') ∧
    (safe_filename name).toList.getLast? ≠ some ('.') ∧
    safe_filename name ≠ "" ∧
    safe_filename ("   ") = "track" :=
  ⟨safe_filename_no_bad name, safe_filename_head name, safe_filename_getLast name,
    safe_filename_ne_empty name, by decide⟩

/-- Witness for the amended C4 at the concrete input `"a/b:c"`. -/
theorem C4_sanitize_amended_witness :
    ('a' ∈ (safe_filename ("a/b:c")).toList ∧ badChars.contains ('a') = false) ∧
    (safe_filename ("a/b:c")).toList.head? ≠ some ('.') ∧
    (safe_filename ("a/b:c")).toList.getLast? ≠ some ('.') ∧
    safe_filename ("a/b:c") ≠ "" ∧
    safe_filename ("   ") = "track" := by
  obtain ⟨h1, h2, h3, h4, h5⟩ := C4_sanitize_amended ("a/b:c")
  exact ⟨⟨by decide, h1 ('a') (by decide)⟩, h2, h3, h4, h5⟩

/-- Claim C5 counterexample: the code strips the whole input *before* testing
for the separator `" - "`, so on the input `" - x"` — which does contain the
separator — the code returns `(none, "- x")` while the claimed description
returns `(none, "x")`. -/
theorem C5_split_counterexample :
    parse_artist_title_from_basename (" - x") = (none, some "- x") ∧
    claimSplitArtistTitle (" - x") = (none, some "x") ∧
    ((none, some "- x") : Option String × Option String) ≠ (none, some "x") := by
  exact ⟨by decide, by decide, by decide⟩

/-- Claim C5 (amended): the input is first trimmed of surrounding
whitespace; the separator test and first-occurrence split are applied to the
*trimmed* input (each side trimmed, empty becomes none; without a separator
the whole trimmed input is the title).  The three concrete examples of the
claim hold unchanged. -/
theorem C5_split_amended (s : String) :
    parse_artist_title_from_basename s = claimSplitArtistTitle (pyStrip pyWs s) ∧
    parse_artist_title_from_basename ("Daft Punk - One More Time") =
      (some "Daft Punk", some "One More Time") ∧
    parse_artist_title_from_basename ("Intro") = (none, some "Intro") ∧
    parse_artist_title_from_basename ("A - B - C") = (some "A", some "B - C") := by
  refine ⟨?_, by decide, by decide, by decide⟩
  unfold parse_artist_title_from_basename claimSplitArtistTitle
  rw [pyStrip_idem]

/-! ## Lemmas about the batch converter -/

theorem strLeb_trans : ∀ a b c : List Char,
    strLeb a b = true → strLeb b c = true → strLeb a c = true := by
  intro a
  induction a with
  | nil => intro b c _ _; rfl
  | cons x xs ih =>
    intro b c h1 h2
    cases b with
    | nil => simp [strLeb] at h1
    | cons y ys =>
      cases c with
      | nil => simp [strLeb] at h2
      | cons z zs =>
        simp only [strLeb] at h1 h2 ⊢
        by_cases hxy : x = y
        · subst hxy
          rw [if_pos rfl] at h1
          by_cases hxz : x = z
          · subst hxz
            rw [if_pos rfl] at h2 ⊢
            exact ih ys zs h1 h2
          · rw [if_neg hxz] at h2 ⊢
            exact h2
        · rw [if_neg hxy] at h1
          have hlt1 : x < y := of_decide_eq_true h1
          by_cases hyz : y = z
          · subst hyz
            rw [if_neg hxy]
            exact h1
          · rw [if_neg hyz] at h2
            have hlt2 : y < z := of_decide_eq_true h2
            have hlt : x < z := lt_trans hlt1 hlt2
            rw [if_neg (ne_of_lt hlt)]
            exact decide_eq_true hlt

theorem strLeb_total : ∀ a b : List Char, (strLeb a b || strLeb b a) = true := by
  intro a
  induction a with
  | nil => intro b; simp [strLeb]
  | cons x xs ih =>
    intro b
    cases b with
    | nil => simp [strLeb]
    | cons y ys =>
      simp only [strLeb]
      by_cases hxy : x = y
      · subst hxy
        rw [if_pos rfl, if_pos rfl]
        exact ih ys
      · rw [if_neg hxy, if_neg (Ne.symm hxy)]
        rcases lt_or_gt_of_ne hxy with h | h
        · simp [decide_eq_true h]
        · simp [decide_eq_true h]

theorem errMsg_inj {a b : String} (h : errMsg a = errMsg b) : a = b := by
  have hd := congrArg String.data h
  simp only [errMsg, String.data_append] at hd
  exact String.ext (List.append_cancel_left hd)

/-- Unrolling the `for f in files` fold of `batch_convert`. -/
theorem batch_foldl (outcome : String → Nat → FfmpegOutcome) :
    ∀ (fs : List String) (acc : ConvertSummary),
    fs.foldl (batchStep outcome) acc =
      { acc with
        details := acc.details ++ fs.map (rowOf outcome),
        converted := acc.converted + fs.countP (convertOk outcome),
        errors := acc.errors ++ (fs.filter fun f => !convertOk outcome f).map errMsg,
        encoderCalls := acc.encoderCalls ++ fs.map fun f => (f, 3) } := by
  intro fs
  induction fs with
  | nil => intro acc; simp
  | cons f fs ih =>
    intro acc
    rw [List.foldl_cons, ih]
    cases hok : (convert_to_mp3_normalized (outcome f) 3).result with
    | true =>
      have hok2 : convertOk outcome f = true := hok
      simp [batchStep, rowOf, errMsg, hok, hok2, List.countP_cons, List.filter_cons,
        List.append_assoc]
      omega
    | false =>
      have hok2 : convertOk outcome f = false := hok
      simp [batchStep, rowOf, errMsg, hok, hok2, List.countP_cons, List.filter_cons,
        List.append_assoc]

/-- `batch_convert` on an existing input folder, in closed form. -/
theorem batch_convert_true_eq (inF outF : String) (entries : List String)
    (outcome : String → Nat → FfmpegOutcome) :
    batch_convert inF outF true entries outcome =
      { input_folder := inF, output_folder := outF,
        files_found := (eligibleFiles entries).length,
        converted := (eligibleFiles entries).countP (convertOk outcome),
        errors := ((eligibleFiles entries).filter fun f => !convertOk outcome f).map errMsg,
        details := (eligibleFiles entries).map (rowOf outcome),
        encoderCalls := (eligibleFiles entries).map fun f => (f, 3) } := by
  show (eligibleFiles entries).foldl (batchStep outcome) _ = _
  rw [batch_foldl]
  simp

theorem eligibleFiles_pair : eligibleFiles ["song.m4a", "notes.txt"] = ["song.m4a"] := by
  unfold eligibleFiles
  have hf : (["song.m4a", "notes.txt"].filter fun f =>
      VALID_EXTS.contains (String.mk ((pySuffix f).toList.map Char.toLower))) = ["song.m4a"] := by
    decide
  rw [hf]
  exact List.perm_singleton.mp (List.mergeSort_perm _ _)

theorem eligibleFiles_single : eligibleFiles ["song.m4a"] = ["song.m4a"] := by
  unfold eligibleFiles
  have hf : (["song.m4a"].filter fun f =>
      VALID_EXTS.contains (String.mk ((pySuffix f).toList.map Char.toLower))) = ["song.m4a"] := by
    decide
  rw [hf]
  exact List.perm_singleton.mp (List.mergeSort_perm _ _)

/-- Claim C8: on a non-existent input folder `batch_convert` returns (rather
than raises) a summary with `files_found = 0`, `converted = 0`, exactly one
error message, an empty details list, and no encoder invocation. -/
theorem C8_missing_input_folder (inF outF : String) (entries : List String)
    (outcome : String → Nat → FfmpegOutcome) :
    (batch_convert inF outF false entries outcome).files_found = 0 ∧
    (batch_convert inF outF false entries outcome).converted = 0 ∧
    (batch_convert inF outF false entries outcome).errors =
      ["Inputfolder bestaat niet: " ++ inF] ∧
    (batch_convert inF outF false entries outcome).details = [] ∧
    (batch_convert inF outF false entries outcome).encoderCalls = [] :=
  ⟨rfl, rfl, rfl, rfl, rfl⟩

/-- Witness for C8 at concrete inputs. -/
theorem C8_missing_input_folder_witness :
    (batch_convert ("in") ("out") false ["song.m4a"] (fun _ _ => FfmpegOutcome.success)).files_found
      = 0 ∧
    (batch_convert ("in") ("out") false ["song.m4a"] (fun _ _ => FfmpegOutcome.success)).errors =
      ["Inputfolder bestaat niet: in"] ∧
    (batch_convert ("in") ("out") false ["song.m4a"] (fun _ _ => FfmpegOutcome.success)).encoderCalls
      = [] := by
  obtain ⟨h1, _, h3, _, h5⟩ :=
    C8_missing_input_folder ("in") ("out") ["song.m4a"] (fun _ _ => FfmpegOutcome.success)
  exact ⟨h1, h3, h5⟩

/-- Claim C9: on an existing input folder `batch_convert` selects exactly the
direct entries whose (lower-cased) extension is in the four-element
allow-list, processes them in lexicographically sorted order, invokes the
encoder with retry budget 3 for each, and names each output by substituting
`.mp3` for the original extension; a folder with `song.m4a` and `notes.txt`
yields exactly one job `song.m4a → song.mp3` and `files_found = 1`. -/
theorem C9_converter_selection (inF outF : String) (entries : List String)
    (outcome : String → Nat → FfmpegOutcome) :
    (batch_convert inF outF true entries outcome).files_found =
      (eligibleFiles entries).length ∧
    (batch_convert inF outF true entries outcome).details =
      (eligibleFiles entries).map (rowOf outcome) ∧
    (batch_convert inF outF true entries outcome).encoderCalls =
      (eligibleFiles entries).map (fun f => (f, 3)) ∧
    (eligibleFiles entries).Perm (entries.filter fun f =>
      VALID_EXTS.contains (String.mk ((pySuffix f).toList.map Char.toLower))) ∧
    (eligibleFiles entries).Pairwise (fun a b => strLeb a.toList b.toList = true) ∧
    (batch_convert inF outF true ["song.m4a", "notes.txt"] outcome).files_found = 1 ∧
    (batch_convert inF outF true ["song.m4a", "notes.txt"] outcome).details.map
      (fun j => (j.input, j.output)) = [("song.m4a", "song.mp3")] := by
  refine ⟨?_, ?_, ?_, ?_, ?_, ?_, ?_⟩
  · rw [batch_convert_true_eq]
  · rw [batch_convert_true_eq]
  · rw [batch_convert_true_eq]
  · exact List.mergeSort_perm _ _
  · exact List.sorted_mergeSort
      (fun a b c hab hbc => strLeb_trans a.toList b.toList c.toList hab hbc)
      (fun a b => strLeb_total a.toList b.toList) _
  · rw [batch_convert_true_eq, eligibleFiles_pair]
    rfl
  · rw [batch_convert_true_eq, eligibleFiles_pair]
    rfl

/-- Witness for C9 at a concrete folder and encoder. -/
theorem C9_converter_selection_witness :
    (batch_convert ("in") ("out") true ["song.m4a", "notes.txt"]
      (fun _ _ => FfmpegOutcome.success)).files_found = 1 ∧
    (batch_convert ("in") ("out") true ["song.m4a", "notes.txt"]
      (fun _ _ => FfmpegOutcome.success)).details.map (fun j => (j.input, j.output)) =
      [("song.m4a", "song.mp3")] ∧
    (batch_convert ("in") ("out") true ["song.m4a", "notes.txt"]
      (fun _ _ => FfmpegOutcome.success)).encoderCalls = [("song.m4a", 3)] := by
  obtain ⟨_, _, h3, _, _, h6, h7⟩ :=
    C9_converter_selection ("in") ("out") ["song.m4a", "notes.txt"] (fun _ _ => FfmpegOutcome.success)
  refine ⟨h6, h7, ?_⟩
  rw [h3, eligibleFiles_pair]
  rfl

/-- Claim C10: on an existing input folder the summary satisfies
`converted + len(errors) = files_found` and `len(details) = files_found`, and
a job's status is `OK` exactly when no error entry referencing its input file
was recorded; in the missing-folder case the first equation fails
(`files_found = 0` with one error). -/
theorem C10_converter_invariant (inF outF : String) (entries : List String)
    (outcome : String → Nat → FfmpegOutcome) :
    (batch_convert inF outF true entries outcome).converted +
      (batch_convert inF outF true entries outcome).errors.length =
      (batch_convert inF outF true entries outcome).files_found ∧
    (batch_convert inF outF true entries outcome).details.length =
      (batch_convert inF outF true entries outcome).files_found ∧
    (∀ j ∈ (batch_convert inF outF true entries outcome).details,
      (j.status = "OK" ↔
        ("Fout bij converteren: " ++ j.input) ∉
          (batch_convert inF outF true entries outcome).errors)) ∧
    ¬((batch_convert inF outF false entries outcome).converted +
        (batch_convert inF outF false entries outcome).errors.length =
        (batch_convert inF outF false entries outcome).files_found) := by
  rw [batch_convert_true_eq]
  refine ⟨?_, by simp, ?_, by simp [batch_convert]⟩
  · simp only [List.length_map]
    rw [← List.countP_eq_length_filter (fun f => !convertOk outcome f)]
    have hsum := List.length_eq_countP_add_countP (convertOk outcome) (eligibleFiles entries)
    simp at hsum
    omega
  · intro j hj
    obtain ⟨f, hf, rfl⟩ := List.mem_map.mp hj
    cases hok : convertOk outcome f with
    | true =>
      constructor
      · intro _ hmem
        obtain ⟨g, hg, hge⟩ := List.mem_map.mp hmem
        have hgf : g = f := errMsg_inj hge
        subst hgf
        have hflt := (List.mem_filter.mp hg).2
        rw [hok] at hflt
        simp at hflt
      · intro _
        simp [rowOf, hok]
    | false =>
      constructor
      · intro hst
        have hstf : (rowOf outcome f).status = "FOUT" := by simp [rowOf, hok]
        rw [hstf] at hst
        exact absurd hst (by decide)
      · intro hnot
        exact absurd (List.mem_map.mpr
          ⟨f, List.mem_filter.mpr ⟨hf, by simp [hok]⟩, rfl⟩) hnot

/-- Witness for C10: a one-file folder with a succeeding encoder — the count
invariant holds, and the recorded job has status `OK` with no matching error
entry. -/
theorem C10_converter_invariant_witness :
    ((batch_convert ("in") ("out") true ["song.m4a"] (fun _ _ => FfmpegOutcome.success)).converted +
      (batch_convert ("in") ("out") true ["song.m4a"]
        (fun _ _ => FfmpegOutcome.success)).errors.length =
      (batch_convert ("in") ("out") true ["song.m4a"]
        (fun _ _ => FfmpegOutcome.success)).files_found) ∧
    rowOf (fun _ _ => FfmpegOutcome.success) ("song.m4a") ∈
      (batch_convert ("in") ("out") true ["song.m4a"] (fun _ _ => FfmpegOutcome.success)).details ∧
    ((rowOf (fun _ _ => FfmpegOutcome.success) ("song.m4a")).status = "OK" ↔
      ("Fout bij converteren: " ++ (rowOf (fun _ _ => FfmpegOutcome.success) ("song.m4a")).input) ∉
        (batch_convert ("in") ("out") true ["song.m4a"]
          (fun _ _ => FfmpegOutcome.success)).errors) := by
  have hd : (batch_convert ("in") ("out") true ["song.m4a"]
      (fun _ _ => FfmpegOutcome.success)).details =
      [rowOf (fun _ _ => FfmpegOutcome.success) ("song.m4a")] := by
    rw [batch_convert_true_eq, eligibleFiles_single]
    rfl
  have hmem : rowOf (fun _ _ => FfmpegOutcome.success) ("song.m4a") ∈
      (batch_convert ("in") ("out") true ["song.m4a"]
        (fun _ _ => FfmpegOutcome.success)).details := by
    rw [hd]
    exact List.mem_singleton.mpr rfl
  exact ⟨(C10_converter_invariant ("in") ("out") ["song.m4a"]
      (fun _ _ => FfmpegOutcome.success)).1, hmem,
    (C10_converter_invariant ("in") ("out") ["song.m4a"]
      (fun _ _ => FfmpegOutcome.success)).2.2.1 _ hmem⟩

end SPYT
